import Mathlib

/- Shallow embedding of the ha-analytics repository scripts
   script/custom_integration_badges.py and script/generate_history.py.

   Filesystem model: a directory is an association list of
   (file name, file content) pairs; the whole derived tree is a function
   from entity (integration) name to an optional directory (none means
   the directory does not exist).  OS-level removal and write failures
   are modelled by an explicit oracle list naming the files whose
   os.remove and open/write calls raise OSError. -/

/-- Key sequence (file names / dict keys) of an association list. -/
def keys {α : Type} (l : List (String × α)) : List String :=
  l.map Prod.fst

/-- Lexicographic comparison of character sequences by code point, the
    order Python uses to compare str values (sorted(), max(), <). -/
def lexLeCh : List Char → List Char → Bool
  | [], _ => true
  | _ :: _, [] => false
  | a :: as, b :: bs =>
    if a.toNat < b.toNat then true
    else if b.toNat < a.toNat then false
    else lexLeCh as bs

/-- Python style string comparison s <= t. -/
def strLe (s t : String) : Bool :=
  lexLeCh s.data t.data

/-- Python style string comparison s < t. -/
def strLt (s t : String) : Bool :=
  !(strLe t s)

/-- Entity metrics as found in one snapshot: optional total count and the
    version-label to count mapping, kept in dict iteration order. -/
structure IntegrationData where
  total : Option Int
  versions : List (String × Int)
deriving DecidableEq

/-- Write a value under a key: overwrite the existing entry if the key is
    present (open(path, "w") on an existing file), append otherwise. -/
def fsWrite {α : Type} (fs : List (String × α)) (n : String) (v : α) :
    List (String × α) :=
  if n ∈ keys fs then fs.map (fun p => if p.1 = n then (n, v) else p)
  else fs ++ [(n, v)]

/-- Filename test performed by both cleanup functions: the glob pattern
    version-*.json together with the startswith("version-") and
    endswith(".json") checks. -/
def isVersionFile (name : String) : Bool :=
  "version-".data.isPrefixOf name.data && ".json".data.isSuffixOf name.data

/-- Label embedded in a version file name: filename[8:-5], i.e. drop the
    8-character prefix "version-" and the 5-character suffix ".json". -/
def labelOf (name : String) : String :=
  String.mk ((name.data.drop 8).take ((name.data.drop 8).length - 5))

/-- Result of one cleanup pass: surviving directory entries, the paths that
    were removed, and the paths whose os.remove raised (the OSError branch
    that only prints the failure). -/
structure CleanupResult (α : Type) where
  fs : List (String × α)
  removed : List String
  errors : List String
deriving DecidableEq

/-- Shared loop body of both cleanup_old_version_files functions: walk the
    directory entries; delete every file that the staleness test flags,
    catching (and only logging) a failed delete; keep everything else. -/
def runCleanup {α : Type} (stale : String → Bool) (removeFails : List String) :
    List (String × α) → CleanupResult α
  | [] => ⟨[], [], []⟩
  | p :: rest =>
    let r := runCleanup stale removeFails rest
    if stale p.1 then
      if removeFails.contains p.1 then ⟨p :: r.fs, r.removed, p.1 :: r.errors⟩
      else ⟨r.fs, p.1 :: r.removed, r.errors⟩
    else ⟨p :: r.fs, r.removed, r.errors⟩

namespace Badges

/-- Badge record returned by generate_badge (a JSON object whose message
    field is a Python str, hence a String here). -/
structure Badge where
  schemaVersion : Nat
  label : String
  message : String
deriving DecidableEq

/-- generate_badge from custom_integration_badges.py. -/
def generate_badge (installations : Int) : Badge :=
  ⟨1, "Installations", toString installations⟩

/-- Staleness test of the badge-script cleanup: a version file whose
    embedded label is not among the current versions. -/
def staleName (current : List String) (name : String) : Bool :=
  isVersionFile name && !(current.contains (labelOf name))

/-- cleanup_old_version_files from custom_integration_badges.py.  The
    pathExists flag models the os.path.exists guard. -/
def cleanup_old_version_files (pathExists : Bool)
    (files : List (String × Badge)) (current : List String)
    (removeFails : List String) : CleanupResult Badge :=
  if pathExists then runCleanup (staleName current) removeFails files
  else ⟨files, [], []⟩

/-- write_badge_file from custom_integration_badges.py: report whether the
    file is new (tracked as added) or pre-existing (tracked as modified),
    then write it unconditionally. -/
def write_badge_file (fs : List (String × Badge)) (name : String) (b : Badge) :
    List (String × Badge) × Bool :=
  (fsWrite fs name b, !((keys fs).contains name))

/-- Badge files the async_test loop writes for one integration, in source
    order: the total badge when "total" is present, then one badge per
    version in dict iteration order. -/
def desiredWrites (d : IntegrationData) : List (String × Badge) :=
  (match d.total with
   | some t => [("total.json", generate_badge t)]
   | none => []) ++
  d.versions.map (fun v => ("version-" ++ v.1 ++ ".json", generate_badge v.2))

/-- Result of the write loop: final directory, added and modified names in
    processing order, and the first write failure (the uncaught exception
    that aborts the run), if any. -/
structure WriteResult where
  fs : List (String × Badge)
  added : List String
  modified : List String
  failure : Option String
deriving DecidableEq

/-- The sequence of write_badge_file calls for one integration.  A write
    whose name is in the failure oracle raises, aborting the loop; nothing
    in the source catches it. -/
def writeBadges : List (String × Badge) → List (String × Badge) →
    List String → WriteResult
  | fs, [], _ => ⟨fs, [], [], none⟩
  | fs, w :: rest, wf =>
    if wf.contains w.1 then ⟨fs, [], [], some w.1⟩
    else
      let wr := write_badge_file fs w.1 w.2
      let r := writeBadges wr.1 rest wf
      if wr.2 then ⟨r.fs, w.1 :: r.added, r.modified, r.failure⟩
      else ⟨r.fs, r.added, w.1 :: r.modified, r.failure⟩

/-- The three file_changes sequences of custom_integration_badges.py, with
    entries in the order the script appends them. -/
structure ChangeReport where
  added : List String
  modified : List String
  removed : List String
deriving DecidableEq

/-- Outcome of processing one integration inside async_test. -/
structure EntityResult where
  fs : List (String × Badge)
  report : ChangeReport
  removeErrors : List String
  failure : Option String
deriving DecidableEq

/-- Body of the async_test loop for one integration: ensure the directory
    (makedirs), clean up stale version files, then write the total badge
    and the per-version badges.  Reported paths are dir-prefixed exactly as
    the script builds them. -/
def processEntity (dir : String) (entFs : Option (List (String × Badge)))
    (d : IntegrationData) (removeFails writeFails : List String) :
    EntityResult :=
  let files0 := entFs.getD []
  let c := cleanup_old_version_files true files0 (keys d.versions) removeFails
  let w := writeBadges c.fs (desiredWrites d) writeFails
  ⟨w.fs,
   ⟨w.added.map (fun n => dir ++ "/" ++ n),
    w.modified.map (fun n => dir ++ "/" ++ n),
    c.removed.map (fun n => dir ++ "/" ++ n)⟩,
   c.errors.map (fun n => dir ++ "/" ++ n),
   w.failure.map (fun n => dir ++ "/" ++ n)⟩

/-- PROCESSED_PATH constant of custom_integration_badges.py. -/
def PROCESSED_PATH : String := "docs/badges/"

/-- Outcome of the whole async_test run. -/
structure RunResult where
  gfs : String → Option (List (String × Badge))
  report : ChangeReport
  removeErrors : List String
  failure : Option String

/-- The async_test loop over all integrations in dict iteration order,
    threading the derived tree and appending to the global file_changes
    accumulator; an uncaught write failure aborts the remaining
    integrations. -/
def runBadges : List (String × IntegrationData) →
    (String → Option (List (String × Badge))) → List String → List String →
    RunResult
  | [], gfs, _, _ => ⟨gfs, ⟨[], [], []⟩, [], none⟩
  | ed :: rest, gfs, rf, wf =>
    let r := processEntity (PROCESSED_PATH ++ ed.1) (gfs ed.1) ed.2 rf wf
    let gfs1 := fun x => if x = ed.1 then some r.fs else gfs x
    match r.failure with
    | some f => ⟨gfs1, r.report, r.removeErrors, some f⟩
    | none =>
      let rr := runBadges rest gfs1 rf wf
      ⟨rr.gfs,
       ⟨r.report.added ++ rr.report.added,
        r.report.modified ++ rr.report.modified,
        r.report.removed ++ rr.report.removed⟩,
       r.removeErrors ++ rr.removeErrors, rr.failure⟩

end Badges

namespace History

/-- One raw snapshot: entity name to metrics, in dict iteration order. -/
abbrev Snapshot := List (String × IntegrationData)

/-- Version label sanitization of generate_history.py:
    version.replace("/", "_").replace("\\", "_"). -/
def sanitize_version (v : String) : String :=
  String.mk ((v.data.map (fun c => if c = '/' then '_' else c)).map
    (fun c => if c = '\\' then '_' else c))

/-- Inverse attempted by cleanup_old_version_files of generate_history.py:
    version.replace("_", "/"). -/
def restore_version (s : String) : String :=
  String.mk (s.data.map (fun c => if c = '_' then '/' else c))

/-- Python dict lookup on an association list (first matching key). -/
def lookupKey {α : Type} (l : List (String × α)) (k : String) : Option α :=
  (l.find? (fun p => decide (p.1 = k))).map Prod.snd

/-- sorted(date_data.keys()) from process_integration_history.  Python
    sorts strings by code point; insertion sort agrees with Python sorted()
    on lists of distinct keys. -/
def sortedDates (dateData : List (String × Snapshot)) : List String :=
  List.insertionSort (fun a b => strLe a b = true) (keys dateData)

/-- The total time series of one integration: for each date in ascending
    order with the integration present and carrying a total, one
    (date, total) entry. -/
def totalHistory (integ : String) (dateData : List (String × Snapshot)) :
    List (String × Int) :=
  (sortedDates dateData).filterMap (fun d =>
    (lookupKey dateData d).bind (fun day =>
      (lookupKey day integ).bind (fun idata =>
        idata.total.map (fun t => (d, t)))))

/-- The per-version time series of one integration for one version label. -/
def versionHistory (integ v : String) (dateData : List (String × Snapshot)) :
    List (String × Int) :=
  (sortedDates dateData).filterMap (fun d =>
    (lookupKey dateData d).bind (fun day =>
      (lookupKey day integ).bind (fun idata =>
        (lookupKey idata.versions v).map (fun c => (d, c)))))

/-- Python tuple comparison on (key, value) items, as used by
    sorted(data.items()). -/
def pairLe (a b : String × Int) : Bool :=
  if a.1 = b.1 then decide (a.2 ≤ b.2) else strLt a.1 b.1

/-- sorted(data.items()) from write_git_friendly_json. -/
def sortPairs (l : List (String × Int)) : List (String × Int) :=
  List.insertionSort (fun a b => pairLe a b = true) l

/-- The item lines written by write_git_friendly_json, with a comma after
    every item except the last. -/
def renderItems : List (String × Int) → String
  | [] => ""
  | [p] => "\"" ++ p.1 ++ "\": " ++ toString p.2 ++ "\n"
  | p :: q :: rest =>
    "\"" ++ p.1 ++ "\": " ++ toString p.2 ++ ",\n" ++ renderItems (q :: rest)

/-- write_git_friendly_json from generate_history.py. -/
def write_git_friendly_json (data : List (String × Int)) : String :=
  "\x7b\n" ++ renderItems (sortPairs data) ++ "\x7d\n"

/-- Staleness test of the history-script cleanup: a version file is removed
    only when neither the verbatim filename label nor its underscore-to-slash
    restoration is a current version. -/
def staleName (current : List String) (name : String) : Bool :=
  isVersionFile name &&
    (!(current.contains (labelOf name)) &&
     !(current.contains (restore_version (labelOf name))))

/-- cleanup_old_version_files from generate_history.py. -/
def cleanup_old_version_files (pathExists : Bool)
    (files : List (String × String)) (current : List String)
    (removeFails : List String) : CleanupResult String :=
  if pathExists then runCleanup (staleName current) removeFails files
  else ⟨files, [], []⟩

/-- Version labels encountered for one integration, in first-encounter
    order across the ascending dates (the version_histories dict keys). -/
def versionsOf (integ : String) (dateData : List (String × Snapshot)) :
    List String :=
  ((sortedDates dateData).flatMap (fun d =>
    match (lookupKey dateData d).bind (fun day => lookupKey day integ) with
    | some idata => keys idata.versions
    | none => [])).eraseDups

/-- Python max() over a list of strings (None when empty). -/
def maxKey : List String → Option String
  | [] => none
  | x :: rest => some (rest.foldl (fun a b => if strLt a b then b else a) x)

/-- current_integrations of main(): the integrations present in the
    snapshot of the latest date. -/
def currentIntegrations (dateData : List (String × Snapshot)) : List String :=
  match maxKey (keys dateData) with
  | none => []
  | some latest => keys ((lookupKey dateData latest).getD [])

/-- current_versions computed by main() for one integration: the version
    labels it carries in the latest snapshot, if any. -/
def currentVersionsFor (integ : String) (dateData : List (String × Snapshot)) :
    List String :=
  match maxKey (keys dateData) with
  | none => []
  | some latest =>
    match (lookupKey dateData latest).bind (fun day => lookupKey day integ) with
    | some idata => keys idata.versions
    | none => []

/-- sorted(all_integrations) of main(): every integration name appearing in
    any snapshot, deduplicated and sorted. -/
def allIntegrations (dateData : List (String × Snapshot)) : List String :=
  List.insertionSort (fun a b => strLe a b = true)
    ((dateData.flatMap (fun p => keys p.2)).eraseDups)

/-- process_integration_history for one integration: ensure the directory,
    write the total series file when nonempty, then one file per version
    series under the sanitized label. -/
def processIntegrationHistory (integ : String)
    (dateData : List (String × Snapshot))
    (hfs : String → Option (List (String × String))) :
    String → Option (List (String × String)) :=
  let dirFiles := (hfs integ).getD []
  let th := totalHistory integ dateData
  let f1 := if th.isEmpty then dirFiles
            else fsWrite dirFiles "total.json" (write_git_friendly_json th)
  let f2 := (versionsOf integ dateData).foldl (fun acc v =>
      let vh := versionHistory integ v dateData
      if vh.isEmpty then acc
      else fsWrite acc ("version-" ++ sanitize_version v ++ ".json")
        (write_git_friendly_json vh)) f1
  fun x => if x = integ then some f2 else hfs x

/-- The cleanup call of main() for one integration: a no-op when the
    directory does not exist (the os.path.exists guard). -/
def applyCleanup (integ : String) (current : List String)
    (hfs : String → Option (List (String × String))) :
    String → Option (List (String × String)) :=
  match hfs integ with
  | none => hfs
  | some files =>
    fun x =>
      if x = integ then some (cleanup_old_version_files true files current []).fs
      else hfs x

/-- main() of generate_history.py: return early on an empty corpus;
    otherwise clean up and rebuild every integration ever seen, then remove
    the whole directory of every integration absent from the latest
    snapshot (shutil.rmtree). -/
def mainPipeline (dateData : List (String × Snapshot))
    (hfs : String → Option (List (String × String))) :
    String → Option (List (String × String)) :=
  if dateData.isEmpty then hfs
  else
    let afterProcess := (allIntegrations dateData).foldl (fun acc integ =>
      processIntegrationHistory integ dateData
        (applyCleanup integ (currentVersionsFor integ dateData) acc)) hfs
    fun e => if (currentIntegrations dateData).contains e then afterProcess e
             else none

end History

section OrderLemmas

theorem lexLeCh_trans {a b c : List Char} (h1 : lexLeCh a b = true)
    (h2 : lexLeCh b c = true) : lexLeCh a c = true := by
  induction a generalizing b c with
  | nil => rfl
  | cons x xs ih =>
    cases b with
    | nil => simp [lexLeCh] at h1
    | cons y ys =>
      cases c with
      | nil => simp [lexLeCh] at h2
      | cons z zs =>
        simp only [lexLeCh] at h1 h2 ⊢
        rcases Nat.lt_trichotomy x.toNat y.toNat with hxy | hxy | hxy
        · rcases Nat.lt_trichotomy y.toNat z.toNat with hyz | hyz | hyz
          · simp [Nat.lt_trans hxy hyz]
          · simp [hyz ▸ hxy]
          · simp [Nat.lt_asymm hyz, hyz] at h2
        · rcases Nat.lt_trichotomy y.toNat z.toNat with hyz | hyz | hyz
          · simp [hxy ▸ hyz]
          · have hxz : x.toNat = z.toNat := hxy.trans hyz
            simp [hxy, Nat.lt_irrefl] at h1
            simp [hyz, Nat.lt_irrefl] at h2
            simp [hxz, Nat.lt_irrefl]
            exact ih h1 h2
          · simp [Nat.lt_asymm hyz, hyz] at h2
        · simp [Nat.lt_asymm hxy, hxy] at h1

theorem lexLeCh_total (a b : List Char) : (lexLeCh a b || lexLeCh b a) = true := by
  induction a generalizing b with
  | nil => simp [lexLeCh]
  | cons x xs ih =>
    cases b with
    | nil => simp [lexLeCh]
    | cons y ys =>
      simp only [lexLeCh]
      rcases Nat.lt_trichotomy x.toNat y.toNat with h | h | h
      · simp [h]
      · simp only [h, Nat.lt_irrefl, if_false, if_neg (Nat.lt_irrefl _)]
        exact ih ys
      · simp [h, Nat.lt_asymm h]

theorem lexLeCh_antisymm {a b : List Char} (h1 : lexLeCh a b = true)
    (h2 : lexLeCh b a = true) : a = b := by
  induction a generalizing b with
  | nil =>
    cases b with
    | nil => rfl
    | cons y ys => simp [lexLeCh] at h2
  | cons x xs ih =>
    cases b with
    | nil => simp [lexLeCh] at h1
    | cons y ys =>
      simp only [lexLeCh] at h1 h2
      rcases Nat.lt_trichotomy x.toNat y.toNat with h | h | h
      · simp [h, Nat.lt_asymm h] at h2
      · have hxy : x = y := Char.ext (UInt32.ext h)
        subst hxy
        simp [Nat.lt_irrefl] at h1 h2
        exact congrArg (x :: ·) (ih h1 h2)
      · simp [h, Nat.lt_asymm h] at h1

theorem strLe_trans {a b c : String} (h1 : strLe a b = true)
    (h2 : strLe b c = true) : strLe a c = true :=
  lexLeCh_trans h1 h2

theorem strLe_total (a b : String) : (strLe a b || strLe b a) = true :=
  lexLeCh_total a.data b.data

theorem strLe_antisymm {a b : String} (h1 : strLe a b = true)
    (h2 : strLe b a = true) : a = b :=
  congrArg String.mk (lexLeCh_antisymm h1 h2)

theorem strLe_refl (a : String) : strLe a a = true := by
  have := strLe_total a a
  cases h : strLe a a
  · rw [h] at this
    simp at this
  · rfl

theorem strLt_of_not_le {a b : String} (h : strLe b a = false) : strLt a b = true := by
  simp [strLt, h]

theorem pairLe_trans {a b c : String × Int} (h1 : History.pairLe a b = true)
    (h2 : History.pairLe b c = true) : History.pairLe a c = true := by
  unfold History.pairLe at h1 h2 ⊢
  by_cases hab : a.1 = b.1 <;> by_cases hbc : b.1 = c.1
  · rw [if_pos hab] at h1
    rw [if_pos hbc] at h2
    rw [if_pos (hab.trans hbc)]
    exact decide_eq_true (le_trans (of_decide_eq_true h1) (of_decide_eq_true h2))
  · rw [if_neg (fun h => hbc ((hab.symm.trans h))), hab]
    rw [if_neg hbc] at h2
    exact h2
  · rw [if_neg (fun h => hab (h.trans hbc.symm)), ← hbc]
    rw [if_neg hab] at h1
    exact h1
  · rw [if_neg hab] at h1
    rw [if_neg hbc] at h2
    have hba : strLe b.1 a.1 = false := by
      simpa [strLt] using h1
    have hcb : strLe c.1 b.1 = false := by
      simpa [strLt] using h2
    have hab2 : strLe a.1 b.1 = true := by
      have := strLe_total a.1 b.1
      rw [hba] at this
      simpa using this
    have hbc2 : strLe b.1 c.1 = true := by
      have := strLe_total b.1 c.1
      rw [hcb] at this
      simpa using this
    have hac : strLe a.1 c.1 = true := strLe_trans hab2 hbc2
    have hne : a.1 ≠ c.1 := by
      intro h
      rw [← h] at hcb
      rw [hab2] at hcb
      exact Bool.noConfusion hcb
    rw [if_neg hne]
    cases hca : strLe c.1 a.1
    · exact strLt_of_not_le hca
    · exact absurd (strLe_antisymm hac hca) hne

theorem pairLe_total (a b : String × Int) :
    (History.pairLe a b || History.pairLe b a) = true := by
  unfold History.pairLe
  by_cases hab : a.1 = b.1
  · rw [if_pos hab, if_pos hab.symm]
    rcases le_total a.2 b.2 with h | h
    · simp [h]
    · simp [h]
  · have hba : ¬ b.1 = a.1 := fun h => hab h.symm
    rw [if_neg hab, if_neg hba]
    cases h1 : strLe b.1 a.1
    · simp [strLt, h1]
    · cases h2 : strLe a.1 b.1
      · simp [strLt, h2]
      · exact absurd (strLe_antisymm h2 h1) hab

end OrderLemmas

section ListHelpers

theorem contains_iff_mem {l : List String} {a : String} :
    l.contains a = true ↔ a ∈ l :=
  List.elem_iff

theorem contains_eq_false_iff {l : List String} {a : String} :
    l.contains a = false ↔ a ∉ l := by
  rw [← Bool.not_eq_true, not_iff_not]
  exact contains_iff_mem

theorem keys_filter {α : Type} (q : String → Bool) (files : List (String × α)) :
    keys (files.filter (fun p => q p.1)) = (keys files).filter q := by
  induction files with
  | nil => rfl
  | cons p rest ih =>
    cases hq : q p.1 <;> simp [keys, List.filter_cons, hq] at ih ⊢ <;>
      simpa [keys] using ih

theorem runCleanup_eq {α : Type} (stale : String → Bool) (fails : List String)
    (files : List (String × α)) :
    runCleanup stale fails files =
      ⟨files.filter (fun p => !(stale p.1) || fails.contains p.1),
       (files.filter (fun p => stale p.1 && !(fails.contains p.1))).map Prod.fst,
       (files.filter (fun p => stale p.1 && fails.contains p.1)).map Prod.fst⟩ := by
  induction files with
  | nil => rfl
  | cons p rest ih =>
    simp only [runCleanup, ih]
    cases hs : stale p.1 <;> by_cases hm : p.1 ∈ fails <;>
      simp [List.filter_cons, hs, hm]

theorem keys_fsWrite {α : Type} (fs : List (String × α)) (n : String) (v : α) :
    keys (fsWrite fs n v) = if n ∈ keys fs then keys fs else keys fs ++ [n] := by
  unfold fsWrite
  by_cases h : n ∈ keys fs
  · rw [if_pos h, if_pos h]
    simp only [keys, List.map_map]
    apply List.map_congr_left
    intro p _
    by_cases hp1 : p.1 = n <;> simp [hp1]
  · rw [if_neg h, if_neg h]
    simp [keys]

theorem mem_keys_fsWrite {α : Type} (fs : List (String × α)) (n m : String)
    (v : α) : m ∈ keys (fsWrite fs n v) ↔ m ∈ keys fs ∨ m = n := by
  rw [keys_fsWrite]
  by_cases h : n ∈ keys fs
  · rw [if_pos h]
    constructor
    · exact Or.inl
    · rintro (hm | rfl)
      · exact hm
      · exact h
  · rw [if_neg h]
    simp

end ListHelpers

section BadgeHelpers

theorem keys_cons {α : Type} (p : String × α) (l : List (String × α)) :
    keys (p :: l) = p.1 :: keys l := rfl

theorem keys_nil {α : Type} : keys ([] : List (String × α)) = [] := rfl

theorem version_data_append (v : String) :
    ("version-" ++ v ++ ".json").data
      = "version-".data ++ (v.data ++ ".json".data) := by
  rw [String.data_append, String.data_append, List.append_assoc]

theorem labelOf_canonical (v : String) :
    labelOf ("version-" ++ v ++ ".json") = v := by
  unfold labelOf
  rw [version_data_append,
    List.drop_left' (show ("version-").data.length = 8 from rfl)]
  have hlen : (v.data ++ ".json".data).length - 5 = v.data.length := by
    simp [List.length_append]
  rw [hlen, List.take_left' rfl]

theorem isVersionFile_canonical (v : String) :
    isVersionFile ("version-" ++ v ++ ".json") = true := by
  unfold isVersionFile
  rw [version_data_append]
  have h1 : ("version-").data.isPrefixOf
      ("version-".data ++ (v.data ++ ".json".data)) = true :=
    List.isPrefixOf_iff_prefix.mpr (List.prefix_append _ _)
  have h2 : (".json").data.isSuffixOf
      ("version-".data ++ (v.data ++ ".json".data)) = true := by
    rw [← List.append_assoc]
    exact List.isSuffixOf_iff_suffix.mpr (List.suffix_append _ _)
  rw [h1, h2]
  rfl

theorem isVersionFile_total_json : isVersionFile "total.json" = false := by
  decide

theorem writeBadges_failure_none (fs ws : List (String × Badges.Badge)) :
    (Badges.writeBadges fs ws []).failure = none := by
  induction ws generalizing fs with
  | nil => rfl
  | cons w rest ih =>
    by_cases hm : w.1 ∈ keys fs <;>
      simp [Badges.writeBadges, Badges.write_badge_file, hm, ih]

theorem writeBadges_fs_cons (fs : List (String × Badges.Badge))
    (w : String × Badges.Badge) (rest : List (String × Badges.Badge)) :
    (Badges.writeBadges fs (w :: rest) []).fs
      = (Badges.writeBadges (fsWrite fs w.1 w.2) rest []).fs := by
  by_cases hm : w.1 ∈ keys fs <;>
    simp [Badges.writeBadges, Badges.write_badge_file, hm]

theorem mem_keys_writeBadges (fs ws : List (String × Badges.Badge)) (m : String) :
    m ∈ keys (Badges.writeBadges fs ws []).fs ↔ m ∈ keys fs ∨ m ∈ keys ws := by
  induction ws generalizing fs with
  | nil => simp [Badges.writeBadges, keys]
  | cons w rest ih =>
    rw [writeBadges_fs_cons, ih, mem_keys_fsWrite]
    simp only [keys_cons, List.mem_cons]
    tauto

theorem writeBadges_all_modified (fs ws : List (String × Badges.Badge))
    (hex : ∀ w ∈ ws, w.1 ∈ keys fs) :
    (Badges.writeBadges fs ws []).added = []
    ∧ (Badges.writeBadges fs ws []).modified = keys ws := by
  induction ws generalizing fs with
  | nil => exact ⟨rfl, rfl⟩
  | cons w rest ih =>
    have hw : w.1 ∈ keys fs := hex w (List.mem_cons_self _ _)
    have hrest : ∀ x ∈ rest, x.1 ∈ keys (fsWrite fs w.1 w.2) := fun x hx =>
      (mem_keys_fsWrite _ _ _ _).mpr (Or.inl (hex x (List.mem_cons_of_mem _ hx)))
    have hres := ih (fsWrite fs w.1 w.2) hrest
    constructor <;>
      simp [Badges.writeBadges, Badges.write_badge_file, hw, hres.1, hres.2,
        keys_cons]

theorem processEntity_fs (dir : String)
    (entFs : Option (List (String × Badges.Badge))) (d : IntegrationData)
    (rf wf : List String) :
    (Badges.processEntity dir entFs d rf wf).fs
      = (Badges.writeBadges
          (Badges.cleanup_old_version_files true (entFs.getD [])
            (keys d.versions) rf).fs
          (Badges.desiredWrites d) wf).fs := rfl

theorem processEntity_report (dir : String)
    (entFs : Option (List (String × Badges.Badge))) (d : IntegrationData)
    (rf wf : List String) :
    (Badges.processEntity dir entFs d rf wf).report
      = ⟨(Badges.writeBadges
            (Badges.cleanup_old_version_files true (entFs.getD [])
              (keys d.versions) rf).fs
            (Badges.desiredWrites d) wf).added.map (fun n => dir ++ "/" ++ n),
         (Badges.writeBadges
            (Badges.cleanup_old_version_files true (entFs.getD [])
              (keys d.versions) rf).fs
            (Badges.desiredWrites d) wf).modified.map (fun n => dir ++ "/" ++ n),
         (Badges.cleanup_old_version_files true (entFs.getD [])
            (keys d.versions) rf).removed.map (fun n => dir ++ "/" ++ n)⟩ := rfl

theorem badges_cleanup_true (files : List (String × Badges.Badge))
    (cur rf : List String) :
    Badges.cleanup_old_version_files true files cur rf
      = runCleanup (Badges.staleName cur) rf files := rfl

theorem history_cleanup_true (files : List (String × String))
    (cur rf : List String) :
    History.cleanup_old_version_files true files cur rf
      = runCleanup (History.staleName cur) rf files := rfl

theorem mem_fs_runCleanup {α : Type} (stale : String → Bool)
    (fails : List String) (files : List (String × α)) (p : String × α) :
    p ∈ (runCleanup stale fails files).fs
      ↔ p ∈ files ∧ (stale p.1 = false ∨ p.1 ∈ fails) := by
  rw [runCleanup_eq]
  simp [List.mem_filter]

theorem mem_keys_runCleanup_nofail {α : Type} (stale : String → Bool)
    (files : List (String × α)) (m : String) :
    m ∈ keys (runCleanup stale [] files).fs
      ↔ m ∈ keys files ∧ stale m = false := by
  rw [runCleanup_eq]
  have hq : (fun (p : String × α) => !(stale p.1) || List.contains [] p.1)
      = (fun p => !(stale p.1)) := by
    funext p
    simp
  simp only [hq]
  rw [keys_filter (fun n => !(stale n))]
  simp [List.mem_filter]

theorem mem_keys_desiredWrites (d : IntegrationData) (m : String) :
    m ∈ keys (Badges.desiredWrites d)
      ↔ (d.total.isSome ∧ m = "total.json")
        ∨ ∃ a ∈ d.versions, m = "version-" ++ a.1 ++ ".json" := by
  cases ht : d.total <;>
    simp [Badges.desiredWrites, keys, ht, List.mem_map, eq_comm]

theorem processEntity_stale_false (dir : String)
    (fs0 : List (String × Badges.Badge)) (d : IntegrationData) (m : String)
    (hm : m ∈ keys (Badges.processEntity dir (some fs0) d [] []).fs) :
    Badges.staleName (keys d.versions) m = false := by
  rw [processEntity_fs, mem_keys_writeBadges] at hm
  rcases hm with hm | hm
  · rw [badges_cleanup_true, mem_keys_runCleanup_nofail] at hm
    exact hm.2
  · rw [mem_keys_desiredWrites] at hm
    rcases hm with ⟨_, rfl⟩ | ⟨a, ha, rfl⟩
    · simp [Badges.staleName, isVersionFile_total_json]
    · have hmemv : labelOf ("version-" ++ a.1 ++ ".json") ∈ keys d.versions := by
        rw [labelOf_canonical]
        exact List.mem_map_of_mem Prod.fst ha
      simp [Badges.staleName, hmemv]

theorem runCleanup_id_of_not_stale {α : Type} (stale : String → Bool)
    (files : List (String × α)) (hall : ∀ p ∈ files, stale p.1 = false) :
    runCleanup stale [] files = ⟨files, [], []⟩ := by
  rw [runCleanup_eq]
  simp only [CleanupResult.mk.injEq]
  refine ⟨List.filter_eq_self.mpr fun p hp => by simp [hall p hp], ?_, ?_⟩
  · rw [List.filter_eq_nil_iff.mpr fun p hp => by simp [hall p hp]]
    rfl
  · rw [List.filter_eq_nil_iff.mpr fun p hp => by simp [hall p hp]]
    rfl

theorem writeBadges_abort (fs : List (String × Badges.Badge))
    (pre post : List (String × Badges.Badge)) (f : String × Badges.Badge)
    (wf : List String) (hpre : ∀ w ∈ pre, w.1 ∉ wf) (hf : f.1 ∈ wf) :
    Badges.writeBadges fs (pre ++ f :: post) wf
      = ⟨(Badges.writeBadges fs pre wf).fs,
         (Badges.writeBadges fs pre wf).added,
         (Badges.writeBadges fs pre wf).modified, some f.1⟩ := by
  induction pre generalizing fs with
  | nil => simp [Badges.writeBadges, hf]
  | cons w rest ih =>
    have hw : w.1 ∉ wf := hpre w (List.mem_cons_self _ _)
    have hrest : ∀ x ∈ rest, x.1 ∉ wf := fun x hx =>
      hpre x (List.mem_cons_of_mem _ hx)
    by_cases hm : w.1 ∈ keys fs <;>
      simp [Badges.writeBadges, Badges.write_badge_file, hw, hm, ih _ hrest]

end BadgeHelpers

section BadgeClaims

/-- C1 counterexample: with desired state total = 5 and empty observed state,
    running the per-entity reconciliation once and re-running it on the
    produced observed state yields a report whose modified sequence is not
    empty: the total artifact, present in both desired and observed state
    with an equal value, is recorded as modified. -/
theorem c1_counterexample :
    (Badges.processEntity "docs/badges/foo"
        (some (Badges.processEntity "docs/badges/foo" (some [])
          ⟨some 5, []⟩ [] []).fs) ⟨some 5, []⟩ [] []).report.modified
      = ["docs/badges/foo/total.json"]
    ∧ (Badges.processEntity "docs/badges/foo"
        (some (Badges.processEntity "docs/badges/foo" (some [])
          ⟨some 5, []⟩ [] []).fs) ⟨some 5, []⟩ [] []).report.modified ≠ [] := by
  decide

/-- C1 (amended): re-running the per-entity reconciliation against the
    observed state produced by a first run yields a report with empty added
    and removed sequences, but whose modified sequence lists every desired
    artifact: the script rewrites every existing file unconditionally and
    records it as modified, so unchanged artifacts are not excluded from the
    report.  The hypothesis restricts version labels to slash-free strings,
    where the flat-directory model matches the script. -/
theorem c1_second_run_marks_all_modified (dir : String)
    (fs0 : List (String × Badges.Badge)) (d : IntegrationData)
    (_hs : ∀ v ∈ keys d.versions, ¬ '/' ∈ v.data) :
    (Badges.processEntity dir
        (some (Badges.processEntity dir (some fs0) d [] []).fs) d [] []).report
      = ⟨[], (keys (Badges.desiredWrites d)).map (fun n => dir ++ "/" ++ n),
          []⟩ := by
  have hall : ∀ p ∈ (Badges.processEntity dir (some fs0) d [] []).fs,
      Badges.staleName (keys d.versions) p.1 = false := fun p hp =>
    processEntity_stale_false dir fs0 d p.1 (List.mem_map_of_mem Prod.fst hp)
  have hex : ∀ w ∈ Badges.desiredWrites d,
      w.1 ∈ keys (Badges.processEntity dir (some fs0) d [] []).fs := by
    intro w hw
    rw [processEntity_fs, mem_keys_writeBadges]
    exact Or.inr (List.mem_map_of_mem Prod.fst hw)
  have hmod := writeBadges_all_modified
    ((Badges.processEntity dir (some fs0) d [] []).fs)
    (Badges.desiredWrites d) hex
  rw [processEntity_report]
  simp only [Option.getD_some]
  rw [badges_cleanup_true, runCleanup_id_of_not_stale _ _ hall]
  simp [hmod.1, hmod.2]

/-- C1 witness: the amended statement evaluated at a concrete desired state
    with a total and one version. -/
theorem c1_witness :
    (Badges.processEntity "docs/badges/foo"
        (some (Badges.processEntity "docs/badges/foo" (some [])
          ⟨some 5, [("1.0", 3)]⟩ [] []).fs) ⟨some 5, [("1.0", 3)]⟩ [] []).report
      = ⟨[], ["docs/badges/foo/total.json", "docs/badges/foo/version-1.0.json"],
          []⟩ :=
  (c1_second_run_marks_all_modified "docs/badges/foo" [] ⟨some 5, [("1.0", 3)]⟩
    (by decide)).trans (by decide)

/-- C2 counterexample: an observed total artifact survives a reconciliation
    whose desired state has no total: the materialized set is not keys(D). -/
theorem c2_counterexample :
    "total.json" ∈ keys (Badges.processEntity "docs/badges/foo"
        (some [("total.json", Badges.generate_badge 1)])
        ⟨none, [("1.0", 5)]⟩ [] []).fs
    ∧ "total.json"
        ∉ keys (Badges.desiredWrites (⟨none, [("1.0", 5)]⟩ : IntegrationData)) := by
  decide

/-- C2 (amended): after a per-entity reconciliation the materialized file
    set equals the desired artifact names together with every observed file
    that is not a stale version file; in particular a stale total artifact
    (and any file not matching the version-file pattern) survives, so the
    observed set need not equal keys(D). -/
theorem c2_observed_set_after_reconcile (dir : String)
    (fs0 : List (String × Badges.Badge)) (d : IntegrationData)
    (_hs : ∀ v ∈ keys d.versions, ¬ '/' ∈ v.data) (m : String) :
    m ∈ keys (Badges.processEntity dir (some fs0) d [] []).fs
      ↔ m ∈ keys (Badges.desiredWrites d)
        ∨ (m ∈ keys fs0 ∧ Badges.staleName (keys d.versions) m = false) := by
  rw [processEntity_fs, mem_keys_writeBadges]
  simp only [Option.getD_some]
  rw [badges_cleanup_true, mem_keys_runCleanup_nofail]
  tauto

/-- C2 witness: the amended characterization evaluated at the
    counterexample input, for the surviving stale total artifact. -/
theorem c2_witness :
    "total.json" ∈ keys (Badges.processEntity "docs/badges/foo"
        (some [("total.json", Badges.generate_badge 1)])
        ⟨none, [("1.0", 5)]⟩ [] []).fs
      ↔ "total.json"
          ∈ keys (Badges.desiredWrites (⟨none, [("1.0", 5)]⟩ : IntegrationData))
        ∨ ("total.json" ∈ keys [("total.json", Badges.generate_badge 1)]
            ∧ Badges.staleName
                (keys (⟨none, [("1.0", 5)]⟩ : IntegrationData).versions)
                "total.json" = false) :=
  c2_observed_set_after_reconcile "docs/badges/foo"
    [("total.json", Badges.generate_badge 1)] ⟨none, [("1.0", 5)]⟩
    (by decide) "total.json"

/-- C4 counterexample: with a failing write for version a, the run aborts:
    the failure names only the failed artifact and the remaining artifact
    (version b), whose write would have succeeded, is never materialized —
    the reconciler neither continues nor aggregates. -/
theorem c4_counterexample :
    (Badges.processEntity "docs/badges/foo" (some [])
        ⟨none, [("a", 1), ("b", 2)]⟩ [] ["version-a.json"]).failure
      = some "docs/badges/foo/version-a.json"
    ∧ "version-b.json" ∉ keys (Badges.processEntity "docs/badges/foo" (some [])
        ⟨none, [("a", 1), ("b", 2)]⟩ [] ["version-a.json"]).fs := by
  decide

/-- C4 (amended): failure handling is split by operation kind.  A failed
    delete is recovered per id: the cleanup keeps walking the remaining
    files, the failed ids stay on disk and are only logged (never recorded
    as removed, never aggregated into an error value).  A failed write is
    not recovered: the write loop stops at the first failing artifact,
    reports only that id, and does not attempt the remaining ids. -/
theorem c4_failure_handling :
    (∀ (stale : String → Bool) (fails : List String)
        (files : List (String × Badges.Badge)),
      runCleanup stale fails files
        = ⟨files.filter (fun p => !(stale p.1) || fails.contains p.1),
           (files.filter (fun p => stale p.1 && !(fails.contains p.1))).map
             Prod.fst,
           (files.filter (fun p => stale p.1 && fails.contains p.1)).map
             Prod.fst⟩)
    ∧ (∀ (fs pre post : List (String × Badges.Badge))
        (f : String × Badges.Badge) (wf : List String),
        (∀ w ∈ pre, w.1 ∉ wf) → f.1 ∈ wf →
      Badges.writeBadges fs (pre ++ f :: post) wf
        = ⟨(Badges.writeBadges fs pre wf).fs,
           (Badges.writeBadges fs pre wf).added,
           (Badges.writeBadges fs pre wf).modified, some f.1⟩) :=
  ⟨fun stale fails files => runCleanup_eq stale fails files,
   fun fs pre post f wf h1 h2 => writeBadges_abort fs pre post f wf h1 h2⟩

/-- C4 witness: the write-abort clause evaluated at a concrete batch whose
    second write fails. -/
theorem c4_witness :
    Badges.writeBadges []
        [("a.json", Badges.generate_badge 1), ("b.json", Badges.generate_badge 2)]
        ["b.json"]
      = ⟨[("a.json", Badges.generate_badge 1)], ["a.json"], [],
          some "b.json"⟩ :=
  (c4_failure_handling.2 [] [("a.json", Badges.generate_badge 1)] []
    ("b.json", Badges.generate_badge 2) ["b.json"] (by decide)
    (by decide)).trans (by decide)

/-- C8: generate_badge always produces schemaVersion 1, label
    "Installations" and the decimal rendering of the count as a string
    message; schemaVersion and label do not depend on the input. -/
theorem c8_generate_badge_fields (n : Int) :
    (Badges.generate_badge n).schemaVersion = 1
    ∧ (Badges.generate_badge n).label = "Installations"
    ∧ (Badges.generate_badge n).message = toString n
    ∧ ∀ m : Int, (Badges.generate_badge m).schemaVersion
          = (Badges.generate_badge n).schemaVersion
        ∧ (Badges.generate_badge m).label = (Badges.generate_badge n).label :=
  ⟨rfl, rfl, rfl, fun _ => ⟨rfl, rfl⟩⟩

/-- C9: both cleanup functions delete only stale version files.  A missing
    directory leaves everything unchanged; any entry whose name does not
    flag as stale (in particular any non version-*.json file, such as
    total.json) survives with its content; and the cleanup never adds
    entries. -/
theorem c9_cleanup_frame :
    (∀ (files : List (String × Badges.Badge)) (cur fails : List String),
      Badges.cleanup_old_version_files false files cur fails = ⟨files, [], []⟩)
    ∧ (∀ (files : List (String × String)) (cur fails : List String),
      History.cleanup_old_version_files false files cur fails = ⟨files, [], []⟩)
    ∧ (∀ (files : List (String × Badges.Badge)) (cur fails : List String)
        (p : String × Badges.Badge), Badges.staleName cur p.1 = false →
      (p ∈ (Badges.cleanup_old_version_files true files cur fails).fs
        ↔ p ∈ files))
    ∧ (∀ (files : List (String × String)) (cur fails : List String)
        (p : String × String), History.staleName cur p.1 = false →
      (p ∈ (History.cleanup_old_version_files true files cur fails).fs
        ↔ p ∈ files))
    ∧ (∀ (files : List (String × Badges.Badge)) (cur fails : List String)
        (b : Badges.Badge),
      (("total.json", b) ∈ (Badges.cleanup_old_version_files true files cur
          fails).fs ↔ ("total.json", b) ∈ files))
    ∧ (∀ (files : List (String × String)) (cur fails : List String)
        (c : String),
      (("total.json", c) ∈ (History.cleanup_old_version_files true files cur
          fails).fs ↔ ("total.json", c) ∈ files))
    ∧ (∀ (files : List (String × Badges.Badge)) (cur fails : List String)
        (p : String × Badges.Badge),
      p ∈ (Badges.cleanup_old_version_files true files cur fails).fs →
        p ∈ files)
    ∧ (∀ (files : List (String × String)) (cur fails : List String)
        (p : String × String),
      p ∈ (History.cleanup_old_version_files true files cur fails).fs →
        p ∈ files) := by
  have hb : ∀ (files : List (String × Badges.Badge)) (cur fails : List String)
      (p : String × Badges.Badge), Badges.staleName cur p.1 = false →
      (p ∈ (Badges.cleanup_old_version_files true files cur fails).fs
        ↔ p ∈ files) := by
    intro files cur fails p h
    rw [badges_cleanup_true, mem_fs_runCleanup]
    simp [h]
  have hh : ∀ (files : List (String × String)) (cur fails : List String)
      (p : String × String), History.staleName cur p.1 = false →
      (p ∈ (History.cleanup_old_version_files true files cur fails).fs
        ↔ p ∈ files) := by
    intro files cur fails p h
    rw [history_cleanup_true, mem_fs_runCleanup]
    simp [h]
  refine ⟨fun _ _ _ => rfl, fun _ _ _ => rfl, hb, hh, ?_, ?_, ?_, ?_⟩
  · intro files cur fails b
    exact hb files cur fails ("total.json", b)
      (by simp [Badges.staleName, isVersionFile_total_json])
  · intro files cur fails c
    exact hh files cur fails ("total.json", c)
      (by simp [History.staleName, isVersionFile_total_json])
  · intro files cur fails p hp
    rw [badges_cleanup_true, mem_fs_runCleanup] at hp
    exact hp.1
  · intro files cur fails p hp
    rw [history_cleanup_true, mem_fs_runCleanup] at hp
    exact hp.1

/-- C9 witness: the badge-side frame clause evaluated on a directory
    holding a non-version file, with a nonempty failure oracle. -/
theorem c9_witness :
    ("readme.txt", Badges.generate_badge 7)
        ∈ (Badges.cleanup_old_version_files true
            [("readme.txt", Badges.generate_badge 7)] [] ["x"]).fs
      ↔ ("readme.txt", Badges.generate_badge 7)
          ∈ [("readme.txt", Badges.generate_badge 7)] :=
  c9_cleanup_frame.2.2.1 [("readme.txt", Badges.generate_badge 7)] [] ["x"]
    ("readme.txt", Badges.generate_badge 7) (by decide)

/-- C10: a history version file is deleted exactly when both the verbatim
    filename label and its underscore-to-slash restoration are absent from
    the current version set; it is kept whenever either form is current. -/
theorem c10_history_retention (files : List (String × String))
    (cur : List String) (p : String × String) (hmem : p ∈ files)
    (hv : isVersionFile p.1 = true) :
    p ∈ (History.cleanup_old_version_files true files cur []).fs
      ↔ (labelOf p.1 ∈ cur
          ∨ History.restore_version (labelOf p.1) ∈ cur) := by
  rw [history_cleanup_true, mem_fs_runCleanup]
  simp [hmem, History.staleName, hv]
  tauto

/-- C10 witness: a file written for label 1.0_2 is kept because the
    restored label 1.0/2 is current, although the verbatim label is not. -/
theorem c10_witness :
    ("version-1.0_2.json", "x")
        ∈ (History.cleanup_old_version_files true
            [("version-1.0_2.json", "x")] ["1.0/2"] []).fs
      ↔ (labelOf "version-1.0_2.json" ∈ ["1.0/2"]
          ∨ History.restore_version (labelOf "version-1.0_2.json")
              ∈ ["1.0/2"]) :=
  c10_history_retention [("version-1.0_2.json", "x")] ["1.0/2"]
    ("version-1.0_2.json", "x") (by decide) (by decide)

end BadgeClaims

section RunHelpers

theorem processEntity_failure (dir : String)
    (entFs : Option (List (String × Badges.Badge))) (d : IntegrationData)
    (rf wf : List String) :
    (Badges.processEntity dir entFs d rf wf).failure
      = ((Badges.writeBadges
            (Badges.cleanup_old_version_files true (entFs.getD [])
              (keys d.versions) rf).fs
            (Badges.desiredWrites d) wf).failure).map
          (fun n => dir ++ "/" ++ n) := rfl

theorem processEntity_failure_none (dir : String)
    (entFs : Option (List (String × Badges.Badge))) (d : IntegrationData)
    (rf : List String) :
    (Badges.processEntity dir entFs d rf []).failure = none := by
  rw [processEntity_failure, writeBadges_failure_none]
  rfl

theorem flatMap_congr_mem {α β : Type} {l : List α} {f g : α → List β}
    (h : ∀ a ∈ l, f a = g a) : l.flatMap f = l.flatMap g := by
  induction l with
  | nil => rfl
  | cons x xs ih =>
    simp only [List.flatMap_cons, h x (List.mem_cons_self _ _),
      ih fun a ha => h a (List.mem_cons_of_mem _ ha)]

end RunHelpers

section RunClaims

/-- C6 counterexample: the report sequences follow the iteration order of
    the input mapping, so versions supplied as 2.0 then 1.0 yield an added
    sequence that is not sorted ascending (the first path does not compare
    below the second in code-point lexicographic order). -/
theorem c6_counterexample :
    (Badges.runBadges [("a", ⟨none, [("2.0", 1), ("1.0", 2)]⟩)]
        (fun _ => none) [] []).report.added
      = ["docs/badges/a/version-2.0.json", "docs/badges/a/version-1.0.json"]
    ∧ strLe "docs/badges/a/version-2.0.json" "docs/badges/a/version-1.0.json"
        = false := by
  decide

/-- C6 (amended): the report of a failure-free run is not sorted; it is the
    concatenation, in input iteration order, of the per-entity reports
    computed on the initial directory of each entity — each sequence lists paths
    in processing order. -/
theorem c6_report_is_processing_order (data : List (String × IntegrationData))
    (gfs : String → Option (List (String × Badges.Badge)))
    (hnd : (data.map Prod.fst).Nodup) :
    (Badges.runBadges data gfs [] []).report.added
        = data.flatMap (fun ed => (Badges.processEntity
            (Badges.PROCESSED_PATH ++ ed.1) (gfs ed.1) ed.2 [] []).report.added)
    ∧ (Badges.runBadges data gfs [] []).report.modified
        = data.flatMap (fun ed => (Badges.processEntity
            (Badges.PROCESSED_PATH ++ ed.1) (gfs ed.1) ed.2 [] []).report.modified)
    ∧ (Badges.runBadges data gfs [] []).report.removed
        = data.flatMap (fun ed => (Badges.processEntity
            (Badges.PROCESSED_PATH ++ ed.1) (gfs ed.1) ed.2 [] []).report.removed) := by
  induction data generalizing gfs with
  | nil => exact ⟨rfl, rfl, rfl⟩
  | cons ed rest ih =>
    have hnd2 : (rest.map Prod.fst).Nodup := (List.nodup_cons.mp hnd).2
    have hne : ∀ ed2 ∈ rest, ed2.1 ≠ ed.1 := by
      intro ed2 h2 heq
      exact (List.nodup_cons.mp hnd).1 (heq ▸ List.mem_map_of_mem Prod.fst h2)
    have hih := ih (fun x => if x = ed.1
      then some (Badges.processEntity (Badges.PROCESSED_PATH ++ ed.1)
        (gfs ed.1) ed.2 [] []).fs
      else gfs x) hnd2
    have hcongr : ∀ (proj : Badges.ChangeReport → List String),
        rest.flatMap (fun ed2 => proj (Badges.processEntity
            (Badges.PROCESSED_PATH ++ ed2.1)
            ((fun x => if x = ed.1
              then some (Badges.processEntity (Badges.PROCESSED_PATH ++ ed.1)
                (gfs ed.1) ed.2 [] []).fs
              else gfs x) ed2.1) ed2.2 [] []).report)
          = rest.flatMap (fun ed2 => proj (Badges.processEntity
              (Badges.PROCESSED_PATH ++ ed2.1) (gfs ed2.1) ed2.2 [] []).report) :=
      fun proj => flatMap_congr_mem fun ed2 h2 => by
        simp [hne ed2 h2]
    refine ⟨?_, ?_, ?_⟩
    · simp only [Badges.runBadges, processEntity_failure_none,
        List.flatMap_cons]
      rw [hih.1, hcongr (fun r => r.added)]
    · simp only [Badges.runBadges, processEntity_failure_none,
        List.flatMap_cons]
      rw [hih.2.1, hcongr (fun r => r.modified)]
    · simp only [Badges.runBadges, processEntity_failure_none,
        List.flatMap_cons]
      rw [hih.2.2, hcongr (fun r => r.removed)]

/-- C6 witness: two entities supplied in reverse-sorted order produce an
    added sequence in that same processing order. -/
theorem c6_witness :
    (Badges.runBadges [("b", ⟨some 1, []⟩), ("a", ⟨some 2, []⟩)]
        (fun _ => none) [] []).report.added
      = ["docs/badges/b/total.json", "docs/badges/a/total.json"] :=
  ((c6_report_is_processing_order [("b", ⟨some 1, []⟩), ("a", ⟨some 2, []⟩)]
    (fun _ => none) (by decide)).1).trans (by decide)

end RunClaims

section HistoryHelpers

theorem or_true_elim {x y : Bool} (h : (x || y) = true) :
    x = true ∨ y = true := by
  cases x
  · right
    simpa using h
  · exact Or.inl rfl

instance : IsTrans String (fun a b => strLe a b = true) :=
  ⟨fun _ _ _ => strLe_trans⟩

instance : IsTotal String (fun a b => strLe a b = true) :=
  ⟨fun a b => or_true_elim (strLe_total a b)⟩

instance : IsAntisymm String (fun a b => strLe a b = true) :=
  ⟨fun _ _ => strLe_antisymm⟩

instance : IsTrans (String × Int) (fun a b => History.pairLe a b = true) :=
  ⟨fun _ _ _ => pairLe_trans⟩

instance : IsTotal (String × Int) (fun a b => History.pairLe a b = true) :=
  ⟨fun a b => or_true_elim (pairLe_total a b)⟩

theorem pairLe_fst {a b : String × Int} (h : History.pairLe a b = true) :
    strLe a.1 b.1 = true := by
  unfold History.pairLe at h
  by_cases hab : a.1 = b.1
  · rw [hab]
    exact strLe_refl b.1
  · rw [if_neg hab] at h
    have hba : strLe b.1 a.1 = false := by simpa [strLt] using h
    have ht := strLe_total a.1 b.1
    rw [hba] at ht
    simpa using ht

theorem sortPairs_keys_sorted (l : List (String × Int)) :
    List.Sorted (fun a b : String => strLe a b = true)
      (keys (History.sortPairs l)) :=
  List.Pairwise.map Prod.fst (fun _ _ hab => pairLe_fst hab)
    (List.sorted_insertionSort _ l)

theorem sortedDates_perm {dd dd2 : List (String × History.Snapshot)}
    (h : dd.Perm dd2) : History.sortedDates dd = History.sortedDates dd2 :=
  List.eq_of_perm_of_sorted
    (((List.perm_insertionSort _ _).trans (h.map Prod.fst)).trans
      (List.perm_insertionSort _ _).symm)
    (List.sorted_insertionSort _ _) (List.sorted_insertionSort _ _)

theorem find?_perm {α : Type} {l l2 : List (String × α)} (h : l.Perm l2)
    (nd : (keys l).Nodup) (k : String) :
    l.find? (fun p => decide (p.1 = k)) = l2.find? (fun p => decide (p.1 = k)) := by
  revert nd
  induction h with
  | nil => intro _; rfl
  | cons x h ih =>
    intro nd
    by_cases hx : x.1 = k
    · simp [List.find?_cons, hx]
    · have hd : (decide (x.1 = k)) = false := by simp [hx]
      simp only [List.find?_cons, hd]
      exact ih (List.nodup_cons.mp (by rw [keys_cons] at nd; exact nd)).2
  | swap x y l =>
    intro nd
    have hxy : y.1 ≠ x.1 := by
      have h1 := (List.nodup_cons.mp (by rw [keys_cons] at nd; exact nd)).1
      intro heq
      exact h1 (by rw [keys_cons]; exact heq ▸ List.mem_cons_self _ _)
    rcases eq_or_ne y.1 k with h1 | h1
    · rcases eq_or_ne x.1 k with h2 | h2
      · exact absurd (h1.trans h2.symm) hxy
      · simp [List.find?_cons, h1, h2]
    · by_cases h2 : x.1 = k <;> simp [List.find?_cons, h1, h2]
  | trans h1 h2 ih1 ih2 =>
    intro nd
    have nd2 := ((h1.map Prod.fst).nodup_iff).mp nd
    exact (ih1 nd).trans (ih2 nd2)

theorem lookupKey_perm {α : Type} {l l2 : List (String × α)} (h : l.Perm l2)
    (nd : (keys l).Nodup) (k : String) :
    History.lookupKey l k = History.lookupKey l2 k := by
  unfold History.lookupKey
  rw [find?_perm h nd k]

theorem totalHistory_perm (integ : String)
    {dd dd2 : List (String × History.Snapshot)} (h : dd.Perm dd2)
    (nd : (keys dd).Nodup) :
    History.totalHistory integ dd2 = History.totalHistory integ dd := by
  unfold History.totalHistory
  rw [← sortedDates_perm h]
  exact List.filterMap_congr fun d _ => by rw [lookupKey_perm h nd d]

theorem versionHistory_perm (integ v : String)
    {dd dd2 : List (String × History.Snapshot)} (h : dd.Perm dd2)
    (nd : (keys dd).Nodup) :
    History.versionHistory integ v dd2 = History.versionHistory integ v dd := by
  unfold History.versionHistory
  rw [← sortedDates_perm h]
  exact List.filterMap_congr fun d _ => by rw [lookupKey_perm h nd d]

end HistoryHelpers

section HistoryClaims

/-- C3 counterexample: the substitution-based encoding is not injective and
    does not round-trip: a_b and a/b collide, and decoding the sanitized
    form of a_b yields a/b. -/
theorem c3_counterexample :
    History.restore_version (History.sanitize_version "a_b") ≠ "a_b"
    ∧ History.sanitize_version "a/b" = History.sanitize_version "a_b"
    ∧ ("a/b" : String) ≠ "a_b" := by
  decide

/-- C3 (amended): the encoding round-trips and is injective only on labels
    free of underscores and backslashes (slashes are allowed): for such
    labels decoding after encoding is the identity and distinct labels keep
    distinct identifiers; outside this set it is lossy, as the
    counterexample shows. -/
theorem c3_roundtrip_on_safe_labels (v w : String)
    (hv1 : '_' ∉ v.data) (hv2 : '\\' ∉ v.data)
    (hw1 : '_' ∉ w.data) (hw2 : '\\' ∉ w.data) :
    History.restore_version (History.sanitize_version v) = v
    ∧ (History.sanitize_version v = History.sanitize_version w → v = w) := by
  have hround : ∀ u : String, '_' ∉ u.data → '\\' ∉ u.data →
      History.restore_version (History.sanitize_version u) = u := by
    intro u h1 h2
    show String.mk (((u.data.map _).map _).map _) = u
    rw [List.map_map, List.map_map]
    have hpt : ∀ c ∈ u.data,
        (((fun c => if c = '_' then '/' else c) ∘
          (fun c => if c = '\\' then '_' else c)) ∘
          (fun c => if c = '/' then '_' else c)) c = id c := by
      intro c hc
      by_cases hc1 : c = '/'
      · subst hc1
        rfl
      · have hc2 : c ≠ '\\' := fun hh => h2 (hh ▸ hc)
        have hc3 : c ≠ '_' := fun hh => h1 (hh ▸ hc)
        simp [Function.comp, hc1, hc2, hc3]
    rw [List.map_congr_left hpt, List.map_id]
  refine ⟨hround v hv1 hv2, fun heq => ?_⟩
  have := congrArg History.restore_version heq
  rw [hround v hv1 hv2, hround w hw1 hw2] at this
  exact this

/-- C3 witness: the amended round-trip and injectivity evaluated on the
    slash-carrying label 1.0/2 against the nearby label 1.0.2. -/
theorem c3_witness :
    History.restore_version (History.sanitize_version "1.0/2") = "1.0/2"
    ∧ (History.sanitize_version "1.0/2" = History.sanitize_version "1.0.2" →
        ("1.0/2" : String) = "1.0.2") :=
  c3_roundtrip_on_safe_labels "1.0/2" "1.0.2" (by decide) (by decide)
    (by decide) (by decide)

/-- C5: on a nonempty corpus, every entity with a materialized directory
    that is absent from the integration set of the latest snapshot is fully torn
    down by main(): after the pipeline its directory (with all artifacts in
    it) is gone. -/
theorem c5_entity_eviction (dateData : List (String × History.Snapshot))
    (hfs : String → Option (List (String × String))) (e : String)
    (hne : dateData ≠ []) (_hobs : (hfs e).isSome = true)
    (hcur : e ∉ History.currentIntegrations dateData) :
    History.mainPipeline dateData hfs e = none := by
  have h1 : dateData.isEmpty = false := by
    cases dateData with
    | nil => exact absurd rfl hne
    | cons a l => rfl
  simp [History.mainPipeline, h1, hcur]

/-- C5 witness: scenario 5 — bar exists only in the older snapshot and has
    a materialized directory; after the pipeline the directory is gone. -/
theorem c5_witness :
    History.mainPipeline
        [("2024-01-01", [("bar", ⟨some 1, []⟩)]),
         ("2024-01-02", [("foo", ⟨some 2, []⟩)])]
        (fun e => if e = "bar" then some [("total.json", "x")] else none) "bar"
      = none :=
  c5_entity_eviction _ _ "bar" (by decide) (by decide) (by decide)

/-- C7: the serialized series is deterministic — the keys of the serialized
    item sequence are sorted ascending in code-point order, and permuting
    the snapshot corpus (its dict iteration order) leaves the serialized
    total and per-version series unchanged. -/
theorem c7_series_determinism (integ v : String)
    (dd dd2 : List (String × History.Snapshot))
    (nd : (keys dd).Nodup) (hperm : dd.Perm dd2) :
    List.Sorted (fun a b : String => strLe a b = true)
        (keys (History.sortPairs (History.totalHistory integ dd)))
    ∧ List.Sorted (fun a b : String => strLe a b = true)
        (keys (History.sortPairs (History.versionHistory integ v dd)))
    ∧ History.write_git_friendly_json (History.totalHistory integ dd2)
        = History.write_git_friendly_json (History.totalHistory integ dd)
    ∧ History.write_git_friendly_json (History.versionHistory integ v dd2)
        = History.write_git_friendly_json (History.versionHistory integ v dd) :=
  ⟨sortPairs_keys_sorted _, sortPairs_keys_sorted _,
   congrArg _ (totalHistory_perm integ hperm nd),
   congrArg _ (versionHistory_perm integ v hperm nd)⟩

/-- C7 witness: the determinism statement evaluated on a two-day corpus
    supplied in reversed order. -/
theorem c7_witness :
    List.Sorted (fun a b : String => strLe a b = true)
        (keys (History.sortPairs (History.totalHistory "foo"
          [("2024-01-02", [("foo", ⟨some 15, []⟩)]),
           ("2024-01-01", [("foo", ⟨some 10, []⟩)])])))
    ∧ List.Sorted (fun a b : String => strLe a b = true)
        (keys (History.sortPairs (History.versionHistory "foo" "1.0"
          [("2024-01-02", [("foo", ⟨some 15, []⟩)]),
           ("2024-01-01", [("foo", ⟨some 10, []⟩)])])))
    ∧ History.write_git_friendly_json (History.totalHistory "foo"
          [("2024-01-01", [("foo", ⟨some 10, []⟩)]),
           ("2024-01-02", [("foo", ⟨some 15, []⟩)])])
        = History.write_git_friendly_json (History.totalHistory "foo"
          [("2024-01-02", [("foo", ⟨some 15, []⟩)]),
           ("2024-01-01", [("foo", ⟨some 10, []⟩)])])
    ∧ History.write_git_friendly_json (History.versionHistory "foo" "1.0"
          [("2024-01-01", [("foo", ⟨some 10, []⟩)]),
           ("2024-01-02", [("foo", ⟨some 15, []⟩)])])
        = History.write_git_friendly_json (History.versionHistory "foo" "1.0"
          [("2024-01-02", [("foo", ⟨some 15, []⟩)]),
           ("2024-01-01", [("foo", ⟨some 10, []⟩)])]) :=
  c7_series_determinism "foo" "1.0"
    [("2024-01-02", [("foo", ⟨some 15, []⟩)]),
     ("2024-01-01", [("foo", ⟨some 10, []⟩)])]
    [("2024-01-01", [("foo", ⟨some 10, []⟩)]),
     ("2024-01-02", [("foo", ⟨some 15, []⟩)])]
    (by decide) (by decide)

end HistoryClaims

section ModelValidation

example :
    (Badges.processEntity "docs/badges/foo" (some []) ⟨some 5, []⟩ [] []).report.added
      = ["docs/badges/foo/total.json"] := by decide

example :
    (Badges.processEntity "docs/badges/foo"
      (some (Badges.processEntity "docs/badges/foo" (some []) ⟨some 5, []⟩ [] []).fs)
      ⟨some 5, []⟩ [] []).report.modified = ["docs/badges/foo/total.json"] := by decide

example : isVersionFile "total.json" = false := by decide

example : labelOf "version-1.0.json" = "1.0" := by decide

example : History.sanitize_version "a/b" = "a_b" := by decide

example : History.restore_version "a_b" = "a/b" := by decide

example :
    History.totalHistory "foo"
      [("2024-01-02", [("foo", ⟨some 15, []⟩)]),
       ("2024-01-01", [("foo", ⟨some 10, []⟩)])]
      = [("2024-01-01", 10), ("2024-01-02", 15)] := by decide

example :
    History.write_git_friendly_json [("2024-01-02", 15), ("2024-01-01", 10)]
      = "\x7b\n\"2024-01-01\": 10,\n\"2024-01-02\": 15\n\x7d\n" := by decide

example :
    History.mainPipeline
      [("2024-01-01", [("bar", ⟨some 1, []⟩)]),
       ("2024-01-02", [("foo", ⟨some 2, []⟩)])]
      (fun e => if e = "bar" then some [("total.json", "x")] else none) "bar"
      = none := by decide

example :
    (History.mainPipeline
      [("2024-01-01", [("bar", ⟨some 1, []⟩)]),
       ("2024-01-02", [("foo", ⟨some 2, []⟩)])]
      (fun e => if e = "bar" then some [("total.json", "x")] else none) "foo").isSome
      = true := by decide

end ModelValidation
